import Mathlib

/-!
Verification of the drag-and-drop block reordering interaction of the
gutenberg repository fragment, together with the entity-fetching hooks of
`packages/edit-site/src/components/add-new-template/utils.js`.

The drag-and-drop core itself (gesture normalizer, long-press trigger,
drag position tracker, reorder committer, layout registry) is exercised by
the tests under `packages/block-editor/src/components/block-draggable/test/`
but its implementation is not part of the excerpt; those components are
modelled from the specification.  The hooks `usePostTypes` and
`useExistingEntitiesToExclude` are embedded directly from the source file.
-/

namespace Gutenberg

/-- Bounding box of a draggable item: position and size, in pixels
(modelled as exact integer coordinates).  From the spec data model:
DraggableItem holds a bounding box (x, y, width, height). -/
structure Box where
  x : Int
  y : Int
  width : Int
  height : Int
deriving Repr, DecidableEq

/-- Phase tag of a pointer sample (spec data model, PointerSample):
down, move, up, cancelled.  Mirrors TouchEventType of
`test/helpers.native.js` (TOUCHES_DOWN, TOUCHES_MOVE, TOUCHES_UP,
TOUCHES_CANCELLED). -/
inductive Phase
  | down
  | move
  | up
  | cancelled
deriving Repr, DecidableEq

/-- A timestamped (x, y) position plus a phase tag; immutable once
recorded (spec data model, PointerSample). -/
structure PointerSample where
  t : Nat
  x : Int
  y : Int
  phase : Phase
deriving Repr, DecidableEq

/-- Status of a DragSession (spec data model): armed, active, committed,
cancelled. -/
inductive Status
  | armed
  | active
  | committed
  | cancelled
deriving Repr, DecidableEq

/-- Modelled from the spec: the Layout Registry, a mapping from item
identity to its latest bounding box, last write wins per key
(implementation not in the excerpt). -/
def recordLayout (reg : List (Nat × Box)) (itemId : Nat) (box : Box) :
    List (Nat × Box) :=
  (itemId, box) :: reg.filter (fun e => e.1 ≠ itemId)

/-- Modelled from the spec: getLayout returns the last recorded box or
unknown (none) if never recorded; side-effect-free. -/
def getLayout (reg : List (Nat × Box)) (itemId : Nat) : Option Box :=
  (reg.find? (fun e => e.1 == itemId)).map Prod.snd

/-- The pointer coordinate c lies strictly past the vertical midpoint
y + height / 2 of the box: the half-extent boundary of the spec glossary
(tie-break policy placing the boundary at the midpoint of a candidate
item's size; a pointer exactly at the midpoint resolves to before, hence
the strict inequality).  Written without division so that exact integer
arithmetic settles it. -/
def pastMidpoint (b : Box) (c : Int) : Prop :=
  2 * b.y + b.height < 2 * c

instance (b : Box) (c : Int) : Decidable (pastMidpoint b c) := by
  unfold pastMidpoint
  infer_instance

/-- Modelled from the spec: the Drag Position Tracker's half-extent rule
(implementation not in the excerpt).  For a move sample at vertical
coordinate c, each candidate item (every item except the dragged one, in
positional order) is targeted before if c is in the first half of its
extent (midpoint resolves to before) and after if in the second half; the
resolved slot is the insertion index implied by this rule, clamped to
[0, itemCount - 1]. -/
def resolveTarget (layout : Nat → Box) (order : List Nat)
    (draggedIdx : Nat) (c : Int) : Nat :=
  let candidates := (order.eraseIdx draggedIdx).map layout
  min (candidates.countP (fun b => decide (pastMidpoint b c)))
    (order.length - 1)

/-- Modelled from the spec: the Reorder Committer's final order
(implementation not in the excerpt).  Removes the dragged item from its
original ordinal position i and reinserts it at the target index j,
shifting intervening items by one position. -/
def commitOrder (order : List Nat) (i j : Nat) : List Nat :=
  match order[i]? with
  | none => order
  | some item => (order.eraseIdx i).insertIdx j item

/-- Modelled from the spec: a DragSession together with the owning list's
state.  Holds the dragged item's identity (via its original ordinal
index), the sequence of pointer samples received so far (append-only),
the currently resolved target index, a status, the list owner's current
order, and the record of setOrder calls made by the Reorder Committer. -/
structure DragState where
  status : Status
  draggedIndex : Nat
  targetIndex : Nat
  samples : List PointerSample
  order : List Nat
  setOrderCalls : List (List Nat)
deriving Repr, DecidableEq

/-- Modelled from the spec: the session created when a long-press arms a
drag on the item at ordinal index i.  The target index starts at the
dragged item's own original index. -/
def initSession (order : List Nat) (i : Nat) : DragState :=
  { status := Status.armed
    draggedIndex := i
    targetIndex := i
    samples := []
    order := order
    setOrderCalls := [] }

/-- Modelled from the spec: processing of one pointer sample by the
armed/active session.  A down sample activates an armed session; a move
sample re-resolves the target index from that sample alone; an up sample
commits the reorder (calling setOrder once) and transitions to committed;
a cancelled sample discards the session without mutating the list and
transitions to cancelled; malformed samples (a move with no prior down)
are ignored; terminal states absorb everything. -/
def processSample (layout : Nat → Box) (s : DragState)
    (p : PointerSample) : DragState :=
  match s.status with
  | Status.armed =>
    match p.phase with
    | Phase.down =>
      { s with status := Status.active, samples := s.samples ++ [p] }
    | Phase.move => s
    | Phase.up =>
      { s with status := Status.cancelled, samples := s.samples ++ [p] }
    | Phase.cancelled =>
      { s with status := Status.cancelled, samples := s.samples ++ [p] }
  | Status.active =>
    match p.phase with
    | Phase.down => s
    | Phase.move =>
      { s with
        targetIndex := resolveTarget layout s.order s.draggedIndex p.y
        samples := s.samples ++ [p] }
    | Phase.up =>
      let newOrder := commitOrder s.order s.draggedIndex s.targetIndex
      { s with
        status := Status.committed
        order := newOrder
        setOrderCalls := s.setOrderCalls ++ [newOrder]
        samples := s.samples ++ [p] }
    | Phase.cancelled =>
      { s with status := Status.cancelled, samples := s.samples ++ [p] }
  | Status.committed => s
  | Status.cancelled => s

/-- Modelled from the spec: a whole drag session, processing the pointer
samples in arrival order on one logical event queue, starting from the
armed session on the item at index i. -/
def runSession (layout : Nat → Box) (order : List Nat) (i : Nat)
    (ps : List PointerSample) : DragState :=
  ps.foldl (processSample layout) (initSession order i)

/-- States of the Long-Press Trigger state machine (spec 4.2):
idle, armed, active. -/
inductive TriggerState
  | idle
  | armed
  | active
deriving Repr, DecidableEq

/-- Configuration of the Long-Press Trigger: the threshold duration a
press must be held, and the movement tolerance below which movement is
not significant. -/
structure TriggerConfig where
  threshold : Int
  tolerance : Int
deriving Repr, DecidableEq

/-- Modelled from the spec: the Long-Press Trigger's state, together with
the floating drag affordance (some item when displayed, anchored to that
item; none when hidden). -/
structure Trigger where
  state : TriggerState
  affordance : Option Nat
deriving Repr, DecidableEq

/-- The trigger starts idle with no affordance displayed. -/
def initTrigger : Trigger :=
  { state := TriggerState.idle, affordance := none }

/-- Modelled from the spec: transition idle to armed, firing when a press
gesture on an item is held past the threshold duration without
significant movement; side effect: displays the floating drag affordance
anchored to the pressed item.  Ambiguous presses fail to arm and are
silently treated as ordinary taps. -/
def pressHeld (cfg : TriggerConfig) (t : Trigger) (item : Nat)
    (duration movement : Int) : Trigger :=
  if t.state = TriggerState.idle ∧ cfg.threshold < duration ∧
      movement ≤ cfg.tolerance then
    { state := TriggerState.armed, affordance := some item }
  else
    t

/-- Modelled from the spec: transition armed to active on receipt of the
first down-phase pointer sample after arming (hiding the affordance, as
the drag-mode test observes), and armed to idle if the press is released
or cancelled before the first pointer sample arrives (treated as a tap,
not a drag). -/
def triggerSample (t : Trigger) (p : PointerSample) : Trigger :=
  match t.state, p.phase with
  | TriggerState.armed, Phase.down =>
    { state := TriggerState.active, affordance := none }
  | TriggerState.armed, Phase.up =>
    { state := TriggerState.idle, affordance := none }
  | TriggerState.armed, Phase.cancelled =>
    { state := TriggerState.idle, affordance := none }
  | _, _ => t

/-- A post type as consumed by usePostTypes of
`add-new-template/utils.js`: only the viewable flag and the slug are
inspected. -/
structure PostType where
  slug : String
  viewable : Bool
deriving Repr, DecidableEq

/-- The excluded post types of usePostTypes (utils.js line 18). -/
def excludedPostTypes : List String :=
  ["attachment", "page"]

/-- usePostTypes (utils.js lines 13-24): while the post-type query is
unresolved the selector yields undefined (none) and the optional chain
propagates it; otherwise the entries are filtered to those that are
viewable and whose slug is not excluded. -/
def usePostTypes (postTypes : Option (List PostType)) :
    Option (List PostType) :=
  postTypes.map fun l =>
    l.filter fun pt =>
      pt.viewable && ! excludedPostTypes.contains pt.slug

/-- An entity record as fetched by getEntityRecords with fields
restricted to id (utils.js line 40). -/
structure Entity where
  id : Nat
deriving Repr, DecidableEq

/-- The argument of useExistingEntitiesToExclude (utils.js line 27):
slugsWithTemplates, type and slug are destructured from it. -/
structure EntityForSuggestions where
  slugsWithTemplates : List String
  type : String
  slug : String

/-- The core-data store surface used by useExistingEntitiesToExclude:
getEntityRecords (returning null, modelled none, while unresolved) and
hasFinishedResolution, both keyed by the selector arguments type, slug
and the slug filter list. -/
structure CoreStore where
  getEntityRecords : String → String → List String → Option (List Entity)
  hasFinishedResolution : String → String → List String → Bool

/-- useExistingEntitiesToExclude (utils.js lines 26-54).  The third
component counts the getEntityRecords queries issued: when
slugsWithTemplates is empty the selector short-circuits to empty results
with hasResolved true and no query; otherwise one query is issued and
null results are coalesced to the empty array before mapping to ids. -/
def useExistingEntitiesToExclude (e : EntityForSuggestions)
    (store : CoreStore) : (List Nat × Bool) × Nat :=
  if e.slugsWithTemplates.isEmpty then
    (([], true), 0)
  else
    ((((store.getEntityRecords e.type e.slug
          e.slugsWithTemplates).getD []).map Entity.id,
      store.hasFinishedResolution e.type e.slug e.slugsWithTemplates), 1)

/-- Concrete geometry of the three test blocks of `index.native.js`
(Paragraph, Image, Spacer): equal-height 100-pixel boxes stacked
vertically at y = 0, 100, 200. -/
def layoutABC : Nat → Box := fun n =>
  if n = 0 then ⟨0, 0, 100, 100⟩
  else if n = 1 then ⟨0, 100, 100, 100⟩
  else ⟨0, 200, 100, 100⟩

/- General list lemmas used by the reorder proofs. -/

theorem perm_get_cons_eraseIdx :
    ∀ (l : List Nat) (i : Nat) (h : i < l.length),
      l.Perm (l.get ⟨i, h⟩ :: l.eraseIdx i)
  | _ :: _, 0, _ => by simp
  | a :: t, i + 1, h => by
    have ih := perm_get_cons_eraseIdx t i (by simpa using h)
    simpa using (ih.cons a).trans (List.Perm.swap _ a _)

theorem perm_insertIdx (a : Nat) :
    ∀ (j : Nat) (l : List Nat), j ≤ l.length →
      (l.insertIdx j a).Perm (a :: l)
  | 0, l, _ => by simp
  | j + 1, [], h => by simp at h
  | j + 1, b :: t, h => by
    have ih := perm_insertIdx a j t (by simpa using h)
    simpa [List.insertIdx_succ_cons] using (ih.cons b).trans (List.Perm.swap a b t)

/-- The committed order is a permutation of the original order whenever
the dragged index is valid and the target index is in range. -/
theorem commitOrder_perm (order : List Nat) (i j : Nat)
    (hi : i < order.length) (hj : j ≤ order.length - 1) :
    (commitOrder order i j).Perm order := by
  unfold commitOrder
  rw [List.getElem?_eq_getElem hi]
  have hlen : (order.eraseIdx i).length = order.length - 1 := by
    rw [List.length_eraseIdx, if_pos hi]
  have h1 := perm_insertIdx (order.get ⟨i, hi⟩) j (order.eraseIdx i)
    (by omega)
  have h2 := perm_get_cons_eraseIdx order i hi
  simpa using h1.trans h2.symm

/-- The half-extent resolution is clamped to at most itemCount - 1. -/
theorem resolveTarget_le (layout : Nat → Box) (order : List Nat)
    (i : Nat) (c : Int) :
    resolveTarget layout order i c ≤ order.length - 1 := by
  unfold resolveTarget
  exact Nat.min_le_right _ _

/- Step lemmas for processSample, one per relevant status/phase pair. -/

theorem processSample_armed_down (layout : Nat → Box) (s : DragState)
    (p : PointerSample) (hs : s.status = Status.armed)
    (hp : p.phase = Phase.down) :
    processSample layout s p =
      { s with status := Status.active, samples := s.samples ++ [p] } := by
  simp [processSample, hs, hp]

theorem processSample_active_move (layout : Nat → Box) (s : DragState)
    (p : PointerSample) (hs : s.status = Status.active)
    (hp : p.phase = Phase.move) :
    processSample layout s p =
      { s with
        targetIndex := resolveTarget layout s.order s.draggedIndex p.y
        samples := s.samples ++ [p] } := by
  simp [processSample, hs, hp]

theorem processSample_active_up (layout : Nat → Box) (s : DragState)
    (p : PointerSample) (hs : s.status = Status.active)
    (hp : p.phase = Phase.up) :
    processSample layout s p =
      { s with
        status := Status.committed
        order := commitOrder s.order s.draggedIndex s.targetIndex
        setOrderCalls :=
          s.setOrderCalls ++ [commitOrder s.order s.draggedIndex s.targetIndex]
        samples := s.samples ++ [p] } := by
  simp [processSample, hs, hp]

theorem processSample_active_cancelled (layout : Nat → Box) (s : DragState)
    (p : PointerSample) (hs : s.status = Status.active)
    (hp : p.phase = Phase.cancelled) :
    processSample layout s p =
      { s with status := Status.cancelled, samples := s.samples ++ [p] } := by
  simp [processSample, hs, hp]

/-- Folding a run of move-phase samples over an active session only
re-resolves the target index (from the latest sample) and appends the
samples; status, order, dragged index and setOrder calls are untouched,
and the final target is either the original one (no moves) or in range. -/
theorem foldl_moves_invariant (layout : Nat → Box) :
    ∀ (moves : List PointerSample) (s : DragState),
      (∀ p ∈ moves, p.phase = Phase.move) → s.status = Status.active →
      ∃ t : Nat,
        moves.foldl (processSample layout) s =
          { s with targetIndex := t, samples := s.samples ++ moves } ∧
        (t = s.targetIndex ∨ t ≤ s.order.length - 1)
  | [], s, _, _ => ⟨s.targetIndex, by simp, Or.inl rfl⟩
  | p :: rest, s, hm, hs => by
    have hp : p.phase = Phase.move := hm p (by simp)
    have hstep := processSample_active_move layout s p hs hp
    obtain ⟨t, heq, hb⟩ := foldl_moves_invariant layout rest
      { s with
        targetIndex := resolveTarget layout s.order s.draggedIndex p.y
        samples := s.samples ++ [p] }
      (fun q hq => hm q (by simp [hq])) hs
    refine ⟨t, ?_, ?_⟩
    · rw [List.foldl_cons, hstep, heq]
      simp
    · rcases hb with hb | hb
      · exact Or.inr (by
          simpa [hb] using resolveTarget_le layout s.order s.draggedIndex p.y)
      · exact Or.inr (by simpa using hb)

/-- After the activating down sample and any run of move samples, the
session is active on the original order with the dragged index intact,
no setOrder call has been made, and the target index is the dragged
index itself or a clamped resolution. -/
theorem runSession_down_moves (layout : Nat → Box) (order : List Nat)
    (i : Nat) (pDown : PointerSample) (moves : List PointerSample)
    (hdown : pDown.phase = Phase.down)
    (hmoves : ∀ p ∈ moves, p.phase = Phase.move) :
    ∃ t : Nat,
      (pDown :: moves).foldl (processSample layout) (initSession order i) =
        { status := Status.active
          draggedIndex := i
          targetIndex := t
          samples := pDown :: moves
          order := order
          setOrderCalls := [] } ∧
      (t = i ∨ t ≤ order.length - 1) := by
  have hstep := processSample_armed_down layout (initSession order i) pDown
    rfl hdown
  obtain ⟨t, heq, hb⟩ := foldl_moves_invariant layout moves
    { initSession order i with
      status := Status.active
      samples := (initSession order i).samples ++ [pDown] } hmoves rfl
  refine ⟨t, ?_, ?_⟩
  · rw [List.foldl_cons, hstep, heq]
    simp [initSession]
  · simpa [initSession] using hb

/-- C1: for every ordered list and every drag session (down sample, any
run of move samples, released by an up sample) in which the item at
index i is released with resolved target index j, the committed order
equals the original list with the item at i removed and reinserted at j,
the relative order of every other item is unchanged (removing the
reinserted item recovers the original list minus the dragged item), and
the committed order is a permutation of the original item set. -/
theorem commit_removes_and_reinserts (layout : Nat → Box)
    (order : List Nat) (i : Nat) (pDown : PointerSample)
    (moves : List PointerSample) (pUp : PointerSample)
    (hi : i < order.length) (hdown : pDown.phase = Phase.down)
    (hmoves : ∀ p ∈ moves, p.phase = Phase.move)
    (hup : pUp.phase = Phase.up) :
    (runSession layout order i (pDown :: (moves ++ [pUp]))).order =
      (order.eraseIdx i).insertIdx
        (runSession layout order i (pDown :: (moves ++ [pUp]))).targetIndex
        (order.get ⟨i, hi⟩) ∧
    ((runSession layout order i (pDown :: (moves ++ [pUp]))).order).eraseIdx
        (runSession layout order i (pDown :: (moves ++ [pUp]))).targetIndex =
      order.eraseIdx i ∧
    ((runSession layout order i (pDown :: (moves ++ [pUp]))).order).Perm
      order := by
  obtain ⟨t, heq, hb⟩ :=
    runSession_down_moves layout order i pDown moves hdown hmoves
  have ht : t ≤ order.length - 1 := by
    rcases hb with hb | hb
    · omega
    · exact hb
  have hrun : runSession layout order i (pDown :: (moves ++ [pUp])) =
      { status := Status.committed
        draggedIndex := i
        targetIndex := t
        samples := (pDown :: moves) ++ [pUp]
        order := commitOrder order i t
        setOrderCalls := [commitOrder order i t] } := by
    unfold runSession
    rw [show pDown :: (moves ++ [pUp]) = (pDown :: moves) ++ [pUp] by simp,
      List.foldl_append, heq, List.foldl_cons, List.foldl_nil,
      processSample_active_up layout _ pUp rfl hup]
    simp
  have hcommit : commitOrder order i t =
      (order.eraseIdx i).insertIdx t (order.get ⟨i, hi⟩) := by
    unfold commitOrder
    rw [List.getElem?_eq_getElem hi]
    simp
  refine ⟨?_, ?_, ?_⟩
  · rw [hrun]
    exact hcommit
  · rw [hrun]
    show (commitOrder order i t).eraseIdx t = order.eraseIdx i
    rw [hcommit]
    exact List.eraseIdx_insertIdx t (order.eraseIdx i)
  · rw [hrun]
    exact commitOrder_perm order i t hi ht

/-- C1 witness: dragging the first of three blocks to pointer height 180
(the Paragraph block of the native test moved to the second position). -/
theorem commit_removes_and_reinserts_witness :
    (runSession layoutABC [0, 1, 2] 0
      ([⟨0, 0, 0, Phase.down⟩] ++
        ([⟨1, 0, 180, Phase.move⟩] ++ [⟨2, 0, 180, Phase.up⟩]))).order =
      (([0, 1, 2] : List Nat).eraseIdx 0).insertIdx
        (runSession layoutABC [0, 1, 2] 0
          ([⟨0, 0, 0, Phase.down⟩] ++
            ([⟨1, 0, 180, Phase.move⟩] ++
              [⟨2, 0, 180, Phase.up⟩]))).targetIndex
        (([0, 1, 2] : List Nat).get ⟨0, by decide⟩) ∧
    ((runSession layoutABC [0, 1, 2] 0
      ([⟨0, 0, 0, Phase.down⟩] ++
        ([⟨1, 0, 180, Phase.move⟩] ++
          [⟨2, 0, 180, Phase.up⟩]))).order).eraseIdx
        (runSession layoutABC [0, 1, 2] 0
          ([⟨0, 0, 0, Phase.down⟩] ++
            ([⟨1, 0, 180, Phase.move⟩] ++
              [⟨2, 0, 180, Phase.up⟩]))).targetIndex =
      ([0, 1, 2] : List Nat).eraseIdx 0 ∧
    ((runSession layoutABC [0, 1, 2] 0
      ([⟨0, 0, 0, Phase.down⟩] ++
        ([⟨1, 0, 180, Phase.move⟩] ++
          [⟨2, 0, 180, Phase.up⟩]))).order).Perm [0, 1, 2] :=
  commit_removes_and_reinserts layoutABC [0, 1, 2] 0
    ⟨0, 0, 0, Phase.down⟩ [⟨1, 0, 180, Phase.move⟩] ⟨2, 0, 180, Phase.up⟩
    (by decide) rfl (by decide) rfl

/-- C2: for every drag session whose pointer-sample sequence is
well-formed per the Gesture Source contract (a down sample, any run of
move samples, then a terminal sample) and ends with a cancelled-phase
sample, setOrder is never invoked, the session's status becomes
cancelled, and the ordered list is left unmodified. -/
theorem cancelled_discards_without_setOrder (layout : Nat → Box)
    (order : List Nat) (i : Nat) (pDown : PointerSample)
    (moves : List PointerSample) (pCan : PointerSample)
    (hdown : pDown.phase = Phase.down)
    (hmoves : ∀ p ∈ moves, p.phase = Phase.move)
    (hcan : pCan.phase = Phase.cancelled) :
    (runSession layout order i
      (pDown :: (moves ++ [pCan]))).setOrderCalls = [] ∧
    (runSession layout order i (pDown :: (moves ++ [pCan]))).status =
      Status.cancelled ∧
    (runSession layout order i (pDown :: (moves ++ [pCan]))).order =
      order := by
  obtain ⟨t, heq, _⟩ :=
    runSession_down_moves layout order i pDown moves hdown hmoves
  have hrun : runSession layout order i (pDown :: (moves ++ [pCan])) =
      { status := Status.cancelled
        draggedIndex := i
        targetIndex := t
        samples := (pDown :: moves) ++ [pCan]
        order := order
        setOrderCalls := [] } := by
    unfold runSession
    rw [show pDown :: (moves ++ [pCan]) = (pDown :: moves) ++ [pCan] by simp,
      List.foldl_append, heq, List.foldl_cons, List.foldl_nil,
      processSample_active_cancelled layout _ pCan rfl hcan]
  rw [hrun]
  exact ⟨rfl, rfl, rfl⟩

/-- C2 witness: the cancelled counterpart of the first native-test drag
leaves the three blocks untouched and records no setOrder call. -/
theorem cancelled_discards_without_setOrder_witness :
    (runSession layoutABC [0, 1, 2] 0
      (⟨0, 0, 0, Phase.down⟩ ::
        ([⟨1, 0, 180, Phase.move⟩] ++
          [⟨2, 0, 180, Phase.cancelled⟩]))).setOrderCalls = [] ∧
    (runSession layoutABC [0, 1, 2] 0
      (⟨0, 0, 0, Phase.down⟩ ::
        ([⟨1, 0, 180, Phase.move⟩] ++
          [⟨2, 0, 180, Phase.cancelled⟩]))).status = Status.cancelled ∧
    (runSession layoutABC [0, 1, 2] 0
      (⟨0, 0, 0, Phase.down⟩ ::
        ([⟨1, 0, 180, Phase.move⟩] ++
          [⟨2, 0, 180, Phase.cancelled⟩]))).order = [0, 1, 2] :=
  cancelled_discards_without_setOrder layoutABC [0, 1, 2] 0
    ⟨0, 0, 0, Phase.down⟩ [⟨1, 0, 180, Phase.move⟩]
    ⟨2, 0, 180, Phase.cancelled⟩ rfl (by decide) rfl

/-- C5: for every active drag session, after the activating down sample
and any run of move samples, the session's target index equals the
half-extent-rule resolution of the most recent move-phase sample alone
(the same resolveTarget value regardless of the earlier samples), and
that resolved index lies in the range [0, itemCount - 1]. -/
theorem target_tracks_latest_sample (layout : Nat → Box)
    (order : List Nat) (i : Nat) (pDown : PointerSample)
    (moves : List PointerSample) (pLast : PointerSample)
    (hlen : 1 ≤ order.length) (hdown : pDown.phase = Phase.down)
    (hmoves : ∀ p ∈ moves, p.phase = Phase.move)
    (hlast : pLast.phase = Phase.move) :
    (runSession layout order i (pDown :: (moves ++ [pLast]))).targetIndex =
      resolveTarget layout order i pLast.y ∧
    (runSession layout order i (pDown :: (moves ++ [pLast]))).targetIndex <
      order.length := by
  obtain ⟨t, heq, _⟩ :=
    runSession_down_moves layout order i pDown moves hdown hmoves
  have hrun : runSession layout order i (pDown :: (moves ++ [pLast])) =
      { status := Status.active
        draggedIndex := i
        targetIndex := resolveTarget layout order i pLast.y
        samples := (pDown :: moves) ++ [pLast]
        order := order
        setOrderCalls := [] } := by
    unfold runSession
    rw [show pDown :: (moves ++ [pLast]) = (pDown :: moves) ++ [pLast] by
        simp,
      List.foldl_append, heq, List.foldl_cons, List.foldl_nil,
      processSample_active_move layout _ pLast rfl hlast]
  rw [hrun]
  refine ⟨rfl, ?_⟩
  show resolveTarget layout order i pLast.y < order.length
  have := resolveTarget_le layout order i pLast.y
  omega

/-- C5 witness: a first move sample at height 250 is fully overridden by
the latest one at height 180, which resolves to slot 1 of the three
test blocks. -/
theorem target_tracks_latest_sample_witness :
    (runSession layoutABC [0, 1, 2] 0
      (⟨0, 0, 0, Phase.down⟩ ::
        ([⟨1, 0, 250, Phase.move⟩] ++
          [⟨2, 0, 180, Phase.move⟩]))).targetIndex =
      resolveTarget layoutABC [0, 1, 2] 0 180 ∧
    (runSession layoutABC [0, 1, 2] 0
      (⟨0, 0, 0, Phase.down⟩ ::
        ([⟨1, 0, 250, Phase.move⟩] ++
          [⟨2, 0, 180, Phase.move⟩]))).targetIndex <
      ([0, 1, 2] : List Nat).length :=
  target_tracks_latest_sample layoutABC [0, 1, 2] 0
    ⟨0, 0, 0, Phase.down⟩ [⟨1, 0, 250, Phase.move⟩]
    ⟨2, 0, 180, Phase.move⟩ (by decide) rfl (by decide) rfl

/-- C6: for every drag session that ends successfully with an up-phase
release, the Reorder Committer calls setOrder exactly once (the record
of setOrder calls is exactly the committed order), the argument passed
is a full permutation of the order held before the drag, and the session
reaches the committed status. -/
theorem up_commits_exactly_once (layout : Nat → Box) (order : List Nat)
    (i : Nat) (pDown : PointerSample) (moves : List PointerSample)
    (pUp : PointerSample) (hi : i < order.length)
    (hdown : pDown.phase = Phase.down)
    (hmoves : ∀ p ∈ moves, p.phase = Phase.move)
    (hup : pUp.phase = Phase.up) :
    (runSession layout order i (pDown :: (moves ++ [pUp]))).setOrderCalls =
      [(runSession layout order i (pDown :: (moves ++ [pUp]))).order] ∧
    ((runSession layout order i (pDown :: (moves ++ [pUp]))).order).Perm
      order ∧
    (runSession layout order i (pDown :: (moves ++ [pUp]))).status =
      Status.committed := by
  obtain ⟨t, heq, hb⟩ :=
    runSession_down_moves layout order i pDown moves hdown hmoves
  have ht : t ≤ order.length - 1 := by
    rcases hb with hb | hb
    · omega
    · exact hb
  have hrun : runSession layout order i (pDown :: (moves ++ [pUp])) =
      { status := Status.committed
        draggedIndex := i
        targetIndex := t
        samples := (pDown :: moves) ++ [pUp]
        order := commitOrder order i t
        setOrderCalls := [commitOrder order i t] } := by
    unfold runSession
    rw [show pDown :: (moves ++ [pUp]) = (pDown :: moves) ++ [pUp] by simp,
      List.foldl_append, heq, List.foldl_cons, List.foldl_nil,
      processSample_active_up layout _ pUp rfl hup]
    simp
  rw [hrun]
  exact ⟨rfl, commitOrder_perm order i t hi ht, rfl⟩

/-- C6 witness: the first native-test drag commits [1, 0, 2] through a
single setOrder call, a permutation of the initial [0, 1, 2]. -/
theorem up_commits_exactly_once_witness :
    (runSession layoutABC [0, 1, 2] 0
      (⟨0, 0, 0, Phase.down⟩ ::
        ([⟨1, 0, 180, Phase.move⟩] ++
          [⟨2, 0, 180, Phase.up⟩]))).setOrderCalls =
      [(runSession layoutABC [0, 1, 2] 0
        (⟨0, 0, 0, Phase.down⟩ ::
          ([⟨1, 0, 180, Phase.move⟩] ++
            [⟨2, 0, 180, Phase.up⟩]))).order] ∧
    ((runSession layoutABC [0, 1, 2] 0
      (⟨0, 0, 0, Phase.down⟩ ::
        ([⟨1, 0, 180, Phase.move⟩] ++
          [⟨2, 0, 180, Phase.up⟩]))).order).Perm [0, 1, 2] ∧
    (runSession layoutABC [0, 1, 2] 0
      (⟨0, 0, 0, Phase.down⟩ ::
        ([⟨1, 0, 180, Phase.move⟩] ++
          [⟨2, 0, 180, Phase.up⟩]))).status = Status.committed :=
  up_commits_exactly_once layoutABC [0, 1, 2] 0
    ⟨0, 0, 0, Phase.down⟩ [⟨1, 0, 180, Phase.move⟩] ⟨2, 0, 180, Phase.up⟩
    (by decide) rfl (by decide) rfl

/-- C3: for the 3-item list [A, B, C] (ids 0, 1, 2) with equal-height
boxes stacked vertically, a drag of A whose move-phase sample's vertical
coordinate lies in the lower half of B's box (strictly past B's midpoint
150 and below B's bottom 200) commits the order [B, A, C]. -/
theorem drag_A_lower_half_B_gives_BAC (c : Int) (h1 : 150 < c)
    (h2 : c < 200) :
    (runSession layoutABC [0, 1, 2] 0
      [⟨0, 0, 0, Phase.down⟩, ⟨1, 0, c, Phase.move⟩,
        ⟨2, 0, c, Phase.up⟩]).order = [1, 0, 2] := by
  have hr : resolveTarget layoutABC [0, 1, 2] 0 c = 1 := by
    norm_num [resolveTarget, layoutABC, pastMidpoint, List.countP_cons,
      List.countP_nil]
    first
    | omega
    | (split_ifs <;> omega)
  show (List.foldl (processSample layoutABC) (initSession [0, 1, 2] 0)
    _).order = _
  rw [List.foldl_cons, processSample_armed_down layoutABC _ _ rfl rfl,
    List.foldl_cons, processSample_active_move layoutABC _ _ rfl rfl,
    List.foldl_cons, processSample_active_up layoutABC _ _ rfl rfl,
    List.foldl_nil]
  show commitOrder [0, 1, 2] 0 (resolveTarget layoutABC [0, 1, 2] 0 c) =
    [1, 0, 2]
  rw [hr]
  decide

/-- C3 witness: the native test's move sample at y = 180 (second half of
the second block's height) yields [1, 0, 2]. -/
theorem drag_A_lower_half_B_gives_BAC_witness :
    (runSession layoutABC [0, 1, 2] 0
      [⟨0, 0, 0, Phase.down⟩, ⟨1, 0, 180, Phase.move⟩,
        ⟨2, 0, 180, Phase.up⟩]).order = [1, 0, 2] :=
  drag_A_lower_half_B_gives_BAC 180 (by decide) (by decide)

/-- C4: for the 3-item list [A, B, C] (ids 0, 1, 2) stacked vertically,
a drag of C (index 2) whose move-phase sample's coordinate lies in the
upper half of A's box (between A's top 0 and its midpoint 50, the
midpoint itself resolving to before) commits the order [C, A, B]. -/
theorem drag_C_upper_half_A_gives_CAB (c : Int) (h1 : 0 ≤ c)
    (h2 : c ≤ 50) :
    (runSession layoutABC [0, 1, 2] 2
      [⟨0, 0, 250, Phase.down⟩, ⟨1, 0, c, Phase.move⟩,
        ⟨2, 0, c, Phase.up⟩]).order = [2, 0, 1] := by
  have hr : resolveTarget layoutABC [0, 1, 2] 2 c = 0 := by
    norm_num [resolveTarget, layoutABC, pastMidpoint, List.countP_cons,
      List.countP_nil]
    omega
  show (List.foldl (processSample layoutABC) (initSession [0, 1, 2] 2)
    _).order = _
  rw [List.foldl_cons, processSample_armed_down layoutABC _ _ rfl rfl,
    List.foldl_cons, processSample_active_move layoutABC _ _ rfl rfl,
    List.foldl_cons, processSample_active_up layoutABC _ _ rfl rfl,
    List.foldl_nil]
  show commitOrder [0, 1, 2] 2 (resolveTarget layoutABC [0, 1, 2] 2 c) =
    [2, 0, 1]
  rw [hr]
  decide

/-- C4 witness: the native test's move sample at y = 0 (top of the first
block) yields [2, 0, 1]. -/
theorem drag_C_upper_half_A_gives_CAB_witness :
    (runSession layoutABC [0, 1, 2] 2
      [⟨0, 0, 250, Phase.down⟩, ⟨1, 0, 0, Phase.move⟩,
        ⟨2, 0, 0, Phase.up⟩]).order = [2, 0, 1] :=
  drag_C_upper_half_A_gives_CAB 0 (by decide) (by decide)

/-- Processing one sample of any phase in any status preserves the
singleton order [a], the dragged index 0 and the target index 0: the
only candidate-free resolution and the only possible commit are both
trivial. -/
theorem processSample_singleton (layout : Nat → Box) (a : Nat)
    (st : Status) (sm : List PointerSample) (soc : List (List Nat))
    (p : PointerSample) :
    (processSample layout ⟨st, 0, 0, sm, [a], soc⟩ p).order = [a] ∧
    (processSample layout ⟨st, 0, 0, sm, [a], soc⟩ p).draggedIndex = 0 ∧
    (processSample layout ⟨st, 0, 0, sm, [a], soc⟩ p).targetIndex = 0 := by
  obtain ⟨pt, px, py, pph⟩ := p
  cases st <;> cases pph <;>
    simp [processSample, resolveTarget, commitOrder]

/-- Folding any sample sequence over a singleton-list session keeps the
order [a] and the target index 0. -/
theorem singleton_fold (layout : Nat → Box) (a : Nat) :
    ∀ (ps : List PointerSample) (st : Status) (sm : List PointerSample)
      (soc : List (List Nat)),
      (ps.foldl (processSample layout) ⟨st, 0, 0, sm, [a], soc⟩).order =
        [a] ∧
      (ps.foldl (processSample layout)
        ⟨st, 0, 0, sm, [a], soc⟩).targetIndex = 0
  | [], _, _, _ => ⟨rfl, rfl⟩
  | p :: rest, st, sm, soc => by
    obtain ⟨h1, h2, h3⟩ := processSample_singleton layout a st sm soc p
    rw [List.foldl_cons]
    rcases hEq : processSample layout ⟨st, 0, 0, sm, [a], soc⟩ p with
      ⟨st2, di2, ti2, sm2, od2, soc2⟩
    simp only [hEq] at h1 h2 h3
    subst h1 h2 h3
    exact singleton_fold layout a rest st2 sm2 soc2

/-- C7: for a list containing exactly one item, every drag sequence
(any samples, any release phase) leaves the order unchanged, and the
target index always equals the dragged item's own original index 0, so
the commit acts as the identity on the list. -/
theorem single_item_drag_is_noop (layout : Nat → Box) (a : Nat)
    (ps : List PointerSample) :
    (runSession layout [a] 0 ps).order = [a] ∧
    (runSession layout [a] 0 ps).targetIndex = 0 :=
  singleton_fold layout a ps Status.armed [] []

/-- C8: in the Long-Press Trigger state machine, a press held past the
threshold duration without significant movement moves the machine from
idle to armed and displays the floating drag affordance anchored to the
pressed item; receipt of the first down-phase pointer sample while armed
moves it to active. -/
theorem long_press_arms_then_down_activates (cfg : TriggerConfig)
    (item : Nat) (duration movement : Int) (p : PointerSample)
    (hd : cfg.threshold < duration) (hm : movement ≤ cfg.tolerance)
    (hp : p.phase = Phase.down) :
    (pressHeld cfg initTrigger item duration movement).state =
      TriggerState.armed ∧
    (pressHeld cfg initTrigger item duration movement).affordance =
      some item ∧
    (triggerSample (pressHeld cfg initTrigger item duration movement)
      p).state = TriggerState.active := by
  have harm : pressHeld cfg initTrigger item duration movement =
      { state := TriggerState.armed, affordance := some item } := by
    unfold pressHeld initTrigger
    rw [if_pos ⟨rfl, hd, hm⟩]
  rw [harm]
  refine ⟨rfl, rfl, ?_⟩
  obtain ⟨pt, px, py, pph⟩ := p
  simp only at hp
  subst hp
  rfl

/-- C8 witness: a 600-unit press against a 500-unit threshold with no
movement arms the trigger on item 3, and a down sample then activates
it. -/
theorem long_press_arms_then_down_activates_witness :
    (pressHeld ⟨500, 10⟩ initTrigger 3 600 0).state =
      TriggerState.armed ∧
    (pressHeld ⟨500, 10⟩ initTrigger 3 600 0).affordance = some 3 ∧
    (triggerSample (pressHeld ⟨500, 10⟩ initTrigger 3 600 0)
      ⟨0, 0, 0, Phase.down⟩).state = TriggerState.active :=
  long_press_arms_then_down_activates ⟨500, 10⟩ 3 600 0
    ⟨0, 0, 0, Phase.down⟩ (by decide) (by decide) rfl

/-- C9: for every resolved collection of post types, usePostTypes
returns exactly those entries whose viewable flag is true and whose slug
is neither attachment nor page (in their original order, hence as a
sublist); while the post-type query is still unresolved (postTypes
undefined) it returns undefined. -/
theorem usePostTypes_filters_viewable_non_excluded :
    usePostTypes none = none ∧
    ∀ l : List PostType,
      ((usePostTypes (some l)).getD []).Sublist l ∧
      ∀ pt : PostType,
        pt ∈ (usePostTypes (some l)).getD [] ↔
          pt ∈ l ∧ pt.viewable = true ∧
          pt.slug ≠ "attachment" ∧ pt.slug ≠ "page" := by
  refine ⟨rfl, fun l => ⟨?_, fun pt => ?_⟩⟩
  · simp [usePostTypes]
  · simp [usePostTypes, List.mem_filter, excludedPostTypes, and_assoc]

/-- C9 witness: the unresolved query propagates undefined. -/
theorem usePostTypes_filters_viewable_non_excluded_witness :
    usePostTypes none = none :=
  usePostTypes_filters_viewable_non_excluded.1

/-- C10: for every entityForSuggestions whose slugsWithTemplates list is
empty, useExistingEntitiesToExclude returns an empty id array paired
with hasResolved true and issues no getEntityRecords query; and whenever
the query result is still null (none), the first component is
nevertheless the empty id array rather than null. -/
theorem useExistingEntitiesToExclude_spec (e : EntityForSuggestions)
    (store : CoreStore) :
    (e.slugsWithTemplates = [] →
      useExistingEntitiesToExclude e store = (([], true), 0)) ∧
    (store.getEntityRecords e.type e.slug e.slugsWithTemplates = none →
      ((useExistingEntitiesToExclude e store).1).1 = []) := by
  constructor
  · intro h
    simp [useExistingEntitiesToExclude, h]
  · intro h
    by_cases hc : e.slugsWithTemplates.isEmpty
    · simp [useExistingEntitiesToExclude, hc]
    · simp [useExistingEntitiesToExclude, hc, h]

/-- C10 witness: an entity with no slugs with templates short-circuits
to an empty id array, hasResolved true, and zero queries. -/
theorem useExistingEntitiesToExclude_spec_witness :
    useExistingEntitiesToExclude ⟨[], "postType", "book"⟩
      ⟨fun _ _ _ => none, fun _ _ _ => false⟩ = (([], true), 0) :=
  (useExistingEntitiesToExclude_spec ⟨[], "postType", "book"⟩
    ⟨fun _ _ _ => none, fun _ _ _ => false⟩).1 rfl

end Gutenberg
